import Mathlib

/-!
Verification development for the two-channel ADC RMS acquisition pipeline
(`src/adc.c` of the esp32-adc-rms-wifi-api firmware).

Shallow embedding conventions:
- C machine integers are modelled as `Nat`/`Int`; wherever the C code can
  overflow or truncate (the `uint32_t` filter accumulator, the `uint16_t`
  sample casts, the `int16_t` millivolt clamp) the model applies the
  corresponding `% 2^w` / clamp explicitly.
- IEEE `float`/`double` arithmetic is idealised as exact rational (`ℚ`) or
  real (`ℝ`) arithmetic; each definition states this where it applies.
- The hardware (one-shot channel reads, the monotonic clock) is an oracle
  supplied as an explicit environment; a failed `adc_oneshot_read` is `none`.
- The mutex-guarded static module state of `adc.c` is an explicit `AdcState`
  record threaded through the operations; each public entry point is a pure
  function of the environment and the state.
-/

-- ======================== Configuration constants (app_config.h) ========================

/-- Expected mains signal frequency, `iSignal_Hz` in app_config.h. -/
def iSignal_Hz : ℕ := 50

/-- Number of signal periods per capture window, `iPeriods_ToCapture`. -/
def iPeriods_ToCapture : ℕ := 3

/-- Capture duration in ms, `iCapture_Ms = 1000 * iPeriods_ToCapture / iSignal_Hz`. -/
def iCapture_Ms : ℕ := 1000 * iPeriods_ToCapture / iSignal_Hz

/-- Per-channel sample rate in Hz, `iPerChSampleRate_Hz`. -/
def iPerChSampleRate_Hz : ℕ := 2000

/-- Derived samples per channel, `iSamples_PerCh = (iPerChSampleRate_Hz * iCapture_Ms) / 1000`. -/
def iSamples_PerCh : ℕ := iPerChSampleRate_Hz * iCapture_Ms / 1000

/-- Moving-average filter tap count, `iFilterTapCount` (must be odd). -/
def iFilterTapCount : ℕ := 5

/-- ADC full scale for 12-bit conversions, `iAdcFullScaleCounts`. -/
def iAdcFullScaleCounts : ℕ := 4095

-- ======================== ESP-IDF value types used by adc.c ========================

/-- The four ESP32 attenuation levels (`adc_atten_t`), ordered here as in the
ESP-IDF enum: `ADC_ATTEN_DB_0 = 0`, `ADC_ATTEN_DB_2_5 = 1`, `ADC_ATTEN_DB_6 = 2`,
`ADC_ATTEN_DB_12 = 3`.  `DB_0` is the most sensitive (smallest full-scale
voltage), `DB_12` the least sensitive. -/
inductive adc_atten_t where
  | DB_0
  | DB_2_5
  | DB_6
  | DB_12
deriving DecidableEq, Repr

/-- The subset of `esp_err_t` values produced by `Adc_MeasureNow`. -/
inductive esp_err_t where
  | ESP_OK
  | ESP_FAIL
  | ESP_ERR_INVALID_STATE
deriving DecidableEq, Repr

-- ======================== Dc_Remove (adc.c lines 42-59) ========================

/-- Truncation of a rational toward zero. Models the C cast `(int32_t)` applied
to a `float` value (C truncates toward zero). -/
def ratTruncToInt (q : ℚ) : ℤ := if 0 ≤ q then ⌊q⌋ else -⌊-q⌋

/-- `Dc_Remove`: subtracts the arithmetic mean from every sample, producing
signed zero-centered output in raw counts.  The `int64_t` accumulator `liSum`
is exact `ℤ` (a sum of at most `iSamples_PerCh` `uint16_t` values cannot
overflow 64 bits); the `float` mean and subtraction are idealised as exact
rational arithmetic. -/
def Dc_Remove (puInput : List ℕ) : List ℤ :=
  let liSum : ℤ := puInput.foldl (fun acc (u : ℕ) => acc + (u : ℤ)) 0
  let fMean : ℚ := (liSum : ℚ) / (puInput.length : ℚ)
  puInput.map (fun (u : ℕ) => ratTruncToInt ((u : ℚ) - fMean))

-- ======================== Moving_Average_Filter (adc.c lines 63-88) ========================

/-- Index clamping of the filter source index, from the body of
`Moving_Average_Filter`: `if (iSource < 0) iSource = 0;
if (iSource >= iCount) iSource = iCount - 1;`. -/
def clampSourceIndex (iSource : ℤ) (iCount : ℕ) : ℕ :=
  if iSource < 0 then 0
  else if (iCount : ℤ) ≤ iSource then iCount - 1
  else iSource.toNat

/-- `Moving_Average_Filter`: symmetric moving average with edge clamping.
The tap offsets run from `-iTapHalf` to `iTapHalf` as in the C loop; the
`uint32_t` accumulator is modelled with an explicit `% 2 ^ 32` on every
addition and the final `(uint16_t)` cast with `% 2 ^ 16`. -/
def Moving_Average_Filter (puInput : List ℕ) : List ℕ :=
  let iCount := puInput.length
  let iTapHalf : ℤ := (iFilterTapCount : ℤ) / 2
  (List.range iCount).map (fun (iIndex : ℕ) =>
    let taps := (List.range iFilterTapCount).map (fun (t : ℕ) => (t : ℤ) - iTapHalf)
    let uiAccumulator := taps.foldl
      (fun acc iTap => (acc + puInput.getD (clampSourceIndex ((iIndex : ℤ) + iTap) iCount) 0) % 2 ^ 32)
      0
    uiAccumulator / iFilterTapCount % 2 ^ 16)

-- ======================== Adc_CountsToVolts (adc.c lines 92-111) ========================

/-- The full-scale voltage selected by the `switch` in `Adc_CountsToVolts`
(1.1 V, 1.5 V, 2.2 V, 3.9 V), as exact rationals. -/
def fullScaleVoltsOf : adc_atten_t → ℚ
  | .DB_0 => 11 / 10
  | .DB_2_5 => 3 / 2
  | .DB_6 => 11 / 5
  | .DB_12 => 39 / 10

/-- `Adc_CountsToVolts`: linear conversion of signed counts to volts,
`fVolts = iCounts * fFullScaleVolts / iAdcFullScaleCounts`, with the `float`
arithmetic idealised as exact rational arithmetic. -/
def Adc_CountsToVolts (eAttenChannel : adc_atten_t) (iCounts : ℤ) : ℚ :=
  (iCounts : ℚ) * fullScaleVoltsOf eAttenChannel / (iAdcFullScaleCounts : ℚ)

-- ======================== Compute_RmsVolts (adc.c lines 115-132) ========================

/-- The `dSumSq` accumulation loop of `Compute_RmsVolts`: sum of squared
per-sample voltages, accumulated left to right.  The `double` accumulator is
idealised as exact rational arithmetic. -/
def Compute_SumSq (piAcCounts : List ℤ) (eAtten : adc_atten_t) : ℚ :=
  piAcCounts.foldl
    (fun dSumSq c => dSumSq + Adc_CountsToVolts eAtten c * Adc_CountsToVolts eAtten c)
    0

/-- `Compute_RmsVolts`: RMS in volts of a zero-centered count sequence,
`sqrt (dSumSq / iCount)`, with `double` arithmetic idealised as exact real
arithmetic. -/
noncomputable def Compute_RmsVolts (piAcCounts : List ℤ) (eAtten : adc_atten_t) : ℝ :=
  Real.sqrt ((Compute_SumSq piAcCounts eAtten : ℝ) / (piAcCounts.length : ℝ))

-- ======================== Millivolt quantization (adc.c lines 377-392) ========================

/-- `lroundf`: round to nearest integer, ties away from zero, idealised on
exact rationals. -/
def lroundfRat (q : ℚ) : ℤ := if 0 ≤ q then ⌊q + 1 / 2⌋ else ⌈q - 1 / 2⌉

/-- `INT16_MAX`. -/
def INT16_MAX : ℤ := 32767

/-- `INT16_MIN`. -/
def INT16_MIN : ℤ := -32768

/-- The per-sample millivolt quantization from the conversion loop of
`Adc_MeasureNow`: `lroundf(fVolts * 1000.0f)` followed by the two saturation
tests against `INT16_MAX` / `INT16_MIN`. -/
def quantizeMilliVolts (fVolts : ℚ) : ℤ :=
  let iMilliVolts : ℤ := lroundfRat (fVolts * 1000)
  let iClampedHigh : ℤ := if iMilliVolts > INT16_MAX then INT16_MAX else iMilliVolts
  if iClampedHigh < INT16_MIN then INT16_MIN else iClampedHigh

-- ======================== Capture_PairedSamples (adc.c lines 136-184) ========================

/-- The sampling loop of `Capture_PairedSamples`.  `readsA i` / `readsB i` are
the results of `adc_oneshot_read` for CH_A / CH_B at sample index `i`
(`none` = the read returned an error).  A failed read of either channel aborts
immediately with `none`; the partially written buffer is never produced.
The `(uint16_t)` store casts are the `% 65536` reductions.  The inter-sample
delay bookkeeping is real-time behaviour with no effect on the data and is not
modelled. -/
def captureLoop (readsA readsB : ℕ → Option ℤ) : ℕ → ℕ → Option (List ℕ × List ℕ)
  | _, 0 => some ([], [])
  | iSampleIndex, Nat.succ rem =>
    match readsA iSampleIndex with
    | none => none
    | some iRawChA =>
      match readsB iSampleIndex with
      | none => none
      | some iRawChB =>
        match captureLoop readsA readsB (iSampleIndex + 1) rem with
        | none => none
        | some (puChA, puChB) =>
          some ((iRawChA.emod 65536).toNat :: puChA, (iRawChB.emod 65536).toNat :: puChB)

/-- `Capture_PairedSamples` for a window of `iCount` paired samples. -/
def Capture_PairedSamples (readsA readsB : ℕ → Option ℤ) (iCount : ℕ) :
    Option (List ℕ × List ℕ) :=
  captureLoop readsA readsB 0 iCount

-- ======================== Step_AttenuationMoreSensitive (adc.c lines 188-209) ========================

/-- `Step_AttenuationMoreSensitive`: one step toward more sensitivity along the
ordered array `{DB_0, DB_2_5, DB_6, DB_12}`; the C loop finds the index of the
current value and returns the previous array entry, or the current value when
already at index 0 (most sensitive).  Spelled out per constructor. -/
def Step_AttenuationMoreSensitive : adc_atten_t → adc_atten_t
  | .DB_0 => .DB_0
  | .DB_2_5 => .DB_0
  | .DB_6 => .DB_2_5
  | .DB_12 => .DB_6

-- ======================== AutoRange_Attenuations (adc.c lines 213-290) ========================

/-- The hardware/clock oracle for one `Adc_MeasureNow` cycle.  `probeReadsA k`
is the CH_A read oracle used by the auto-range probe capture of attempt `k`
(likewise `probeReadsB`); `mainReadsA`/`mainReadsB` drive the main capture;
`nowUs` is the `esp_timer_get_time()` value read before publishing. -/
structure MeasureEnv where
  probeReadsA : ℕ → ℕ → Option ℤ
  probeReadsB : ℕ → ℕ → Option ℤ
  mainReadsA : ℕ → Option ℤ
  mainReadsB : ℕ → Option ℤ
  nowUs : ℤ

/-- The probe frame captured at auto-range attempt `iAttempt`. -/
def probeFrameOf (env : MeasureEnv) (iAttempt : ℕ) : Option (List ℕ × List ℕ) :=
  Capture_PairedSamples (env.probeReadsA iAttempt) (env.probeReadsB iAttempt) iSamples_PerCh

/-- Saturation flag of one probe channel (adc.c lines 250-258): the filtered
frame is scanned and the channel is saturated when the count of samples
`>= iAdcFullScaleCounts` is positive. -/
def saturatedFlag (auRaw : List ℕ) : Bool :=
  let auFilt := Moving_Average_Filter auRaw
  let iFullScaleHits := auFilt.countP (fun u => decide (iAdcFullScaleCounts ≤ u))
  decide (0 < iFullScaleHits)

/-- The per-channel view of the auto-range loop state: current attenuation,
previous (one less sensitive) attenuation, and the done flag. -/
structure ChanView where
  eAtten : adc_atten_t
  ePrev : adc_atten_t
  bDone : Bool
deriving DecidableEq, Repr

/-- The per-channel attenuation update of one auto-range iteration
(adc.c lines 260-271 for channel A, 273-284 for channel B). -/
def chanUpdate (bSaturated : Bool) (c : ChanView) : ChanView :=
  if c.bDone then c
  else if bSaturated then ⟨c.ePrev, c.ePrev, true⟩
  else if c.eAtten = .DB_0 then ⟨c.eAtten, c.ePrev, true⟩
  else ⟨Step_AttenuationMoreSensitive c.eAtten, c.eAtten, false⟩

/-- The full auto-range loop state for both channels. -/
structure ArState where
  chA : ChanView
  chB : ChanView
deriving DecidableEq, Repr

/-- One auto-range loop iteration after a successful probe capture: filter
both channels, compute saturation flags, and update both channels
independently. -/
def arStep (auRawChA auRawChB : List ℕ) (s : ArState) : ArState :=
  ⟨chanUpdate (saturatedFlag auRawChA) s.chA, chanUpdate (saturatedFlag auRawChB) s.chB⟩

/-- Initial auto-range state: both channels start at the least sensitive
setting `ADC_ATTEN_DB_12`, with `ePrev` equal to it and not done
(adc.c lines 219-226). -/
def arInit : ArState :=
  ⟨⟨.DB_12, .DB_12, false⟩, ⟨.DB_12, .DB_12, false⟩⟩

/-- The bounded probe loop of `AutoRange_Attenuations`: at most `fuel`
iterations remain, `iAttempt` is the current attempt index.  The loop exits
when both channels are done, breaks when a probe capture fails, and otherwise
performs `arStep` and continues. -/
def arGo (env : MeasureEnv) : ℕ → ℕ → ArState → ArState
  | 0, _, s => s
  | Nat.succ fuel, iAttempt, s =>
    if s.chA.bDone && s.chB.bDone then s
    else
      match probeFrameOf env iAttempt with
      | none => s
      | some (auRawChA, auRawChB) => arGo env fuel (iAttempt + 1) (arStep auRawChA auRawChB s)

/-- Instrumented variant of `arGo` returning the trace of loop states, one per
loop entry, ending with the state the loop leaves behind. -/
def arRun (env : MeasureEnv) : ℕ → ℕ → ArState → List ArState
  | 0, _, s => [s]
  | Nat.succ fuel, iAttempt, s =>
    if s.chA.bDone && s.chB.bDone then [s]
    else
      match probeFrameOf env iAttempt with
      | none => [s]
      | some (auRawChA, auRawChB) => s :: arRun env fuel (iAttempt + 1) (arStep auRawChA auRawChB s)

/-- `AutoRange_Attenuations`: runs the probe loop for at most 12 attempts from
`arInit` and returns the chosen attenuations. -/
def AutoRange_Attenuations (env : MeasureEnv) : adc_atten_t × adc_atten_t :=
  let s := arGo env 12 0 arInit
  (s.chA.eAtten, s.chB.eAtten)

-- ======================== Published state (adc.c lines 23-38) ========================

/-- `adc_result_t` (adc.h): the cached RMS measurement result.  RMS values are
idealised reals; `iSamplesPerChannel` is the C `int`. -/
structure adc_result_t where
  fRmsVoltsChA : ℝ
  fRmsVoltsChB : ℝ
  liTimestampUs : ℤ
  eAttenChA : adc_atten_t
  eAttenChB : adc_atten_t
  iSamplesPerChannel : ℤ

/-- The mutex-guarded static module state of adc.c: the latest result cache
and the last-waveform cache.  The two fixed `int16_t[iSamples_PerCh]` arrays
are lists of the signed sample values. -/
structure AdcState where
  gsLatestResult : adc_result_t
  gbHasLatest : Bool
  gaiLastAcMilliVoltsChA : List ℤ
  gaiLastAcMilliVoltsChB : List ℤ
  giLastSamplesCount : ℤ
  gliLastSamplesTimestampUs : ℤ
  geLastSamplesAttenChA : adc_atten_t
  geLastSamplesAttenChB : adc_atten_t
  gbHasLastSamples : Bool

/-- The state at program start: `gsLatestResult` is a zero-initialised static
(C zero-initialises the struct, so the attenuation fields hold enum value 0 =
`ADC_ATTEN_DB_0`), the waveform arrays are zero-filled, and the explicit
initialisers of adc.c lines 34-38 set count 0, timestamp 0, attenuations
`ADC_ATTEN_DB_12`, and both has-flags false. -/
def initialAdcState : AdcState where
  gsLatestResult := ⟨0, 0, 0, .DB_0, .DB_0, 0⟩
  gbHasLatest := false
  gaiLastAcMilliVoltsChA := List.replicate iSamples_PerCh 0
  gaiLastAcMilliVoltsChB := List.replicate iSamples_PerCh 0
  giLastSamplesCount := 0
  gliLastSamplesTimestampUs := 0
  geLastSamplesAttenChA := .DB_12
  geLastSamplesAttenChB := .DB_12
  gbHasLastSamples := false

-- ======================== Adc_MeasureNow (adc.c lines 328-419) ========================

/-- `Adc_MeasureNow`: auto-range, capture one window, filter, DC-remove,
compute RMS, quantize the waveform to millivolts, and publish result and
waveform together under the mutex.  A failed capture returns `ESP_FAIL` and
leaves the state untouched.  The model assumes the module is initialised
(`Adc_Init` succeeded), so the `ESP_ERR_INVALID_STATE` guard is not taken. -/
noncomputable def Adc_MeasureNow (env : MeasureEnv) (s : AdcState) : esp_err_t × AdcState :=
  let eChosen := AutoRange_Attenuations env
  match Capture_PairedSamples env.mainReadsA env.mainReadsB iSamples_PerCh with
  | none => (.ESP_FAIL, s)
  | some (auRawChA, auRawChB) =>
    let auFiltChA := Moving_Average_Filter auRawChA
    let auFiltChB := Moving_Average_Filter auRawChB
    let aiAcCountsChA := Dc_Remove auFiltChA
    let aiAcCountsChB := Dc_Remove auFiltChB
    let fRmsA := Compute_RmsVolts aiAcCountsChA eChosen.1
    let fRmsB := Compute_RmsVolts aiAcCountsChB eChosen.2
    let aiAcMilliVoltsChA :=
      aiAcCountsChA.map (fun c => quantizeMilliVolts (Adc_CountsToVolts eChosen.1 c))
    let aiAcMilliVoltsChB :=
      aiAcCountsChB.map (fun c => quantizeMilliVolts (Adc_CountsToVolts eChosen.2 c))
    (.ESP_OK,
      { gsLatestResult :=
          ⟨fRmsA, fRmsB, env.nowUs, eChosen.1, eChosen.2, (iSamples_PerCh : ℤ)⟩
        gbHasLatest := true
        gaiLastAcMilliVoltsChA := aiAcMilliVoltsChA
        gaiLastAcMilliVoltsChB := aiAcMilliVoltsChB
        giLastSamplesCount := (iSamples_PerCh : ℤ)
        gliLastSamplesTimestampUs := env.nowUs
        geLastSamplesAttenChA := eChosen.1
        geLastSamplesAttenChB := eChosen.2
        gbHasLastSamples := true })

-- ======================== Adc_GetLatest (adc.c lines 423-443) ========================

/-- `Adc_GetLatest`: copies the cached result out when one is available.
`none` models returning `false` without writing through the output pointer.
The caller-supplied pointer is assumed non-NULL and the module initialised. -/
def Adc_GetLatest (s : AdcState) : Option adc_result_t :=
  if s.gbHasLatest then some s.gsLatestResult else none

-- ======================== Adc_GetLastSamplesMilliVolts (adc.c lines 447-498) ========================

/-- The outputs written by a successful `Adc_GetLastSamplesMilliVolts` call:
the two copied waveform prefixes and the metadata. -/
structure WaveformOut where
  samplesA : List ℤ
  samplesB : List ℤ
  iSamplesReturned : ℤ
  liTimestampUs : ℤ
  eAttenChannelA : adc_atten_t
  eAttenChannelB : adc_atten_t
deriving DecidableEq, Repr

/-- `Adc_GetLastSamplesMilliVolts`: returns `none` (false, nothing written)
when `iMaxSamples <= 0` or when no waveform is cached (or the cached count is
zero); otherwise copies the first `iCopyCount = min(cached count, iMaxSamples)`
samples of each channel plus the metadata.  All output pointers are assumed
non-NULL and the module initialised. -/
def Adc_GetLastSamplesMilliVolts (s : AdcState) (iMaxSamples : ℤ) : Option WaveformOut :=
  if iMaxSamples ≤ 0 then none
  else
    let bHasValue := s.gbHasLastSamples
    let iCopyCount := if iMaxSamples < s.giLastSamplesCount then iMaxSamples else s.giLastSamplesCount
    if bHasValue && decide (0 < iCopyCount) then
      some
        ⟨s.gaiLastAcMilliVoltsChA.take iCopyCount.toNat,
         s.gaiLastAcMilliVoltsChB.take iCopyCount.toNat,
         iCopyCount,
         s.gliLastSamplesTimestampUs,
         s.geLastSamplesAttenChA,
         s.geLastSamplesAttenChB⟩
    else none

-- ======================== Spec-side definitions (from spec.md wording) ========================

/-- Sensitivity order of the gain settings as described by the spec: an
ordered enumeration from least sensitive (`DB_12`, index 0) to most sensitive
(`DB_0`, index 3). -/
def sensitivityIndex : adc_atten_t → ℕ
  | .DB_12 => 0
  | .DB_6 => 1
  | .DB_2_5 => 2
  | .DB_0 => 3

/-- Spec-side window index: the window index `i + t - iTapHalf` clamped to the
nearest valid index of `[0, n)` (edge replication). -/
def specClampedIndex (i t n : ℕ) : ℕ :=
  (max 0 (min ((n : ℤ) - 1) ((i : ℤ) + (t : ℤ) - 2))).toNat

/-- Spec-side moving average (spec section 4.2): output of identical length
where each output sample is the unweighted mean (in integer counts) of the
`iFilterTapCount` input samples in the symmetric window centered on that
index, window indices clamped to the nearest valid index. -/
def specMovingAverage (input : List ℕ) : List ℕ :=
  (List.range input.length).map (fun i =>
    (∑ t in Finset.range iFilterTapCount, input.getD (specClampedIndex i t input.length) 0) /
      iFilterTapCount)

/-- Spec-side gain-to-full-scale-voltage mapping (spec sections 4.4, 6),
written with the decimal constants of the spec. -/
def specFullScaleVolts : adc_atten_t → ℚ
  | .DB_0 => 1.1
  | .DB_2_5 => 1.5
  | .DB_6 => 2.2
  | .DB_12 => 3.9

/-- Spec-side RMS formula (spec section 4.5 / claim C3):
`sqrt((1/n) * sum of v_i^2)` with `v_i = counts_i * fullScaleVolts / fullScaleCounts`. -/
noncomputable def specRmsFormula (counts : List ℤ) (g : adc_atten_t) : ℝ :=
  Real.sqrt ((1 / (counts.length : ℝ)) *
    ∑ i in Finset.range counts.length,
      (((counts.getD i 0 : ℤ) : ℝ) * ((specFullScaleVolts g : ℚ) : ℝ) /
        ((iAdcFullScaleCounts : ℕ) : ℝ)) ^ 2)

/-- Spec-side millivolt quantization: round to nearest and saturate (clamp) to
the signed 16-bit range. -/
def specClampMilliVolts (v : ℚ) : ℤ :=
  max INT16_MIN (min INT16_MAX (lroundfRat (v * 1000)))

/-- Auto-range per-channel invariant: the current setting is the previous one
or exactly one step more sensitive than it. -/
abbrev InvChan (c : ChanView) : Prop :=
  c.eAtten = c.ePrev ∨ c.eAtten = Step_AttenuationMoreSensitive c.ePrev

/-- Monotonicity relation between consecutive auto-range loop states of one
channel: a locked channel is frozen; a probing channel either moves exactly
one step more sensitive and keeps probing, or locks, moving at most one step
back (to the immediately prior, less sensitive setting). -/
abbrev relChan (c c' : ChanView) : Prop :=
  (c.bDone = true → c' = c) ∧
  (c.bDone = false →
    (sensitivityIndex c'.eAtten = sensitivityIndex c.eAtten + 1 ∧ c'.bDone = false) ∨
    (c'.bDone = true ∧
      (c'.eAtten = c.eAtten ∨ sensitivityIndex c.eAtten = sensitivityIndex c'.eAtten + 1)))

/-- `relChan` on both channels of an auto-range state. -/
abbrev arRel (s s' : ArState) : Prop := relChan s.chA s'.chA ∧ relChan s.chB s'.chB

/-- The paired-update property of the published cache: the has-flags agree,
and once a result is published its timestamp, attenuations, and sample count
agree with the waveform snapshot's. -/
abbrev PairedInv (s : AdcState) : Prop :=
  s.gbHasLatest = s.gbHasLastSamples ∧
  (s.gbHasLatest = true →
    s.gsLatestResult.liTimestampUs = s.gliLastSamplesTimestampUs ∧
    s.gsLatestResult.eAttenChA = s.geLastSamplesAttenChA ∧
    s.gsLatestResult.eAttenChB = s.geLastSamplesAttenChB ∧
    s.gsLatestResult.iSamplesPerChannel = s.giLastSamplesCount)

-- ======================== Concrete inputs used by witnesses ========================

/-- An environment in which every hardware read fails. -/
def envAllFail : MeasureEnv :=
  ⟨fun _ _ => none, fun _ _ => none, fun _ => none, fun _ => none, 0⟩

/-- An environment in which every probe read fails but the main capture reads
all return raw count 0, with clock value 7. -/
def envMainZero : MeasureEnv :=
  ⟨fun _ _ => none, fun _ _ => none, fun _ => some 0, fun _ => some 0, 7⟩

/-- A concrete both-channels-locked auto-range state used by witnesses. -/
def sBothDone : ArState := ⟨⟨.DB_6, .DB_12, true⟩, ⟨.DB_0, .DB_0, true⟩⟩

/-- A concrete cached-waveform state used to exercise the waveform accessor. -/
def sWaveExample : AdcState where
  gsLatestResult := ⟨0, 0, 5, .DB_6, .DB_12, (iSamples_PerCh : ℤ)⟩
  gbHasLatest := true
  gaiLastAcMilliVoltsChA := List.replicate iSamples_PerCh 2
  gaiLastAcMilliVoltsChB := List.replicate iSamples_PerCh 3
  giLastSamplesCount := (iSamples_PerCh : ℤ)
  gliLastSamplesTimestampUs := 5
  geLastSamplesAttenChA := .DB_6
  geLastSamplesAttenChB := .DB_12
  gbHasLastSamples := true

-- ======================== Helper lemmas ========================

theorem iSamples_PerCh_eq : iSamples_PerCh = 120 := by decide

theorem foldl_add_intCast (l : List ℕ) (init : ℤ) :
    l.foldl (fun acc (u : ℕ) => acc + (u : ℤ)) init
      = init + (l.map (fun u : ℕ => (u : ℤ))).sum := by
  induction l generalizing init with
  | nil => simp
  | cons a t ih => rw [List.map_cons, List.sum_cons, List.foldl_cons, ih, add_assoc]

theorem foldl_add_ratSum (l : List ℤ) (g : ℤ → ℚ) (init : ℚ) :
    l.foldl (fun acc u => acc + g u) init = init + (l.map g).sum := by
  induction l generalizing init with
  | nil => simp
  | cons a t ih => rw [List.map_cons, List.sum_cons, List.foldl_cons, ih, add_assoc]

theorem map_sum_eq_sum_range (l : List ℤ) (f : ℤ → ℚ) :
    (l.map f).sum = ∑ i in Finset.range l.length, f (l.getD i 0) := by
  induction l with
  | nil => simp
  | cons a t ih => simp [Finset.sum_range_succ', ih, add_comm]

theorem captureLoop_lengths (readsA readsB : ℕ → Option ℤ) :
    ∀ (rem idx : ℕ) (la lb : List ℕ),
      captureLoop readsA readsB idx rem = some (la, lb) →
      la.length = rem ∧ lb.length = rem := by
  intro rem
  induction rem with
  | zero =>
    intro idx la lb h
    simp only [captureLoop, Option.some.injEq, Prod.mk.injEq] at h
    simp [← h.1, ← h.2]
  | succ r ih =>
    intro idx la lb h
    simp only [captureLoop] at h
    cases hA : readsA idx with
    | none => rw [hA] at h; exact absurd h (by simp)
    | some ra =>
      cases hB : readsB idx with
      | none => rw [hA, hB] at h; exact absurd h (by simp)
      | some rb =>
        rw [hA, hB] at h
        cases hRec : captureLoop readsA readsB (idx + 1) r with
        | none => rw [hRec] at h; exact absurd h (by simp)
        | some p =>
          obtain ⟨ta, tb⟩ := p
          rw [hRec] at h
          simp only [Option.some.injEq, Prod.mk.injEq] at h
          obtain ⟨h1, h2⟩ := h
          have := ih (idx + 1) ta tb hRec
          constructor
          · rw [← h1]; simp [this.1]
          · rw [← h2]; simp [this.2]

theorem Moving_Average_Filter_length (l : List ℕ) :
    (Moving_Average_Filter l).length = l.length := by
  simp [Moving_Average_Filter]

theorem Dc_Remove_length (l : List ℕ) : (Dc_Remove l).length = l.length := by
  simp [Dc_Remove]

theorem ratTruncToInt_eq_zero (q : ℚ) (h : q = 0) : ratTruncToInt q = 0 := by
  rw [h]
  simp [ratTruncToInt]

-- ======================== Claim theorems ========================

/-- Claim C5: each AC-volts sample is converted to millivolts, rounded to the
nearest integer, and saturated (clamped, never wrapped) to the signed 16-bit
range; 32.8 V quantizes to 32767 mV and -40.0 V to -32768 mV.  Float
arithmetic is idealised as exact rational arithmetic; both example inputs are
far enough from the thresholds that single-precision rounding cannot change
the clamped outcome. -/
theorem quantize_millivolts_clamps :
    (∀ v : ℚ, quantizeMilliVolts v = specClampMilliVolts v ∧
      INT16_MIN ≤ quantizeMilliVolts v ∧ quantizeMilliVolts v ≤ INT16_MAX) ∧
    quantizeMilliVolts (328 / 10) = 32767 ∧
    quantizeMilliVolts (-40) = -32768 := by
  refine ⟨fun v => ?_, ?_, ?_⟩
  · simp only [quantizeMilliVolts, specClampMilliVolts, INT16_MAX, INT16_MIN]
    split_ifs <;> omega
  · have hr : lroundfRat ((328 : ℚ) / 10 * 1000) = 32800 := by
      rw [show ((328 : ℚ) / 10 * 1000) = 32800 by norm_num]
      rw [lroundfRat, if_pos (by norm_num : (0 : ℚ) ≤ 32800)]
      rw [Int.floor_eq_iff] <;> norm_num
    simp only [quantizeMilliVolts, hr, INT16_MAX, INT16_MIN]
    decide
  · have hr : lroundfRat ((-40 : ℚ) * 1000) = -40000 := by
      rw [show ((-40 : ℚ) * 1000) = -40000 by norm_num]
      rw [lroundfRat, if_neg (by norm_num : ¬(0 : ℚ) ≤ -40000)]
      rw [Int.ceil_eq_iff] <;> norm_num
    simp only [quantizeMilliVolts, hr, INT16_MAX, INT16_MIN]
    decide

/-- Claim C7: for every constant input sequence of length >= 1, `Dc_Remove`
produces the all-zero output sequence (the `int64_t` sum is exact). -/
theorem dc_remove_constant_zero (n c : ℕ) (h : 0 < n) :
    Dc_Remove (List.replicate n c) = List.replicate n 0 := by
  have hsum : ((List.replicate n c).foldl (fun acc (u : ℕ) => acc + (u : ℤ)) 0)
      = (n : ℤ) * (c : ℤ) := by
    rw [foldl_add_intCast]
    simp [List.map_replicate, List.sum_replicate, nsmul_eq_mul]
  have hn : ((n : ℚ)) ≠ 0 := by positivity
  simp only [Dc_Remove, hsum, List.length_replicate, List.map_replicate]
  refine congrArg (fun z => List.replicate n z) (ratTruncToInt_eq_zero _ ?_)
  push_cast
  field_simp

/-- Witness for C7 at a concrete constant sequence. -/
theorem dc_remove_constant_zero_witness :
    Dc_Remove (List.replicate 3 7) = List.replicate 3 0 :=
  dc_remove_constant_zero 3 7 (by decide)

/-- Claim C10: `Adc_GetLastSamplesMilliVolts` returns false (writing nothing)
when `iMaxSamples <= 0` or before any waveform is cached; when it returns
true, the reported and copied sample count is exactly
`min(cached count, iMaxSamples)`, a prefix of the cached waveform. -/
theorem getLastSamples_contract (s : AdcState) (iMaxSamples : ℤ) :
    (iMaxSamples ≤ 0 → Adc_GetLastSamplesMilliVolts s iMaxSamples = none) ∧
    (s.gbHasLastSamples = false → Adc_GetLastSamplesMilliVolts s iMaxSamples = none) ∧
    (∀ out, Adc_GetLastSamplesMilliVolts s iMaxSamples = some out →
      out.iSamplesReturned = min s.giLastSamplesCount iMaxSamples ∧
      out.samplesA = s.gaiLastAcMilliVoltsChA.take (min s.giLastSamplesCount iMaxSamples).toNat ∧
      out.samplesB = s.gaiLastAcMilliVoltsChB.take (min s.giLastSamplesCount iMaxSamples).toNat ∧
      (s.giLastSamplesCount ≤ (s.gaiLastAcMilliVoltsChA.length : ℤ) →
        (out.samplesA.length : ℤ) = min s.giLastSamplesCount iMaxSamples) ∧
      (s.giLastSamplesCount ≤ (s.gaiLastAcMilliVoltsChB.length : ℤ) →
        (out.samplesB.length : ℤ) = min s.giLastSamplesCount iMaxSamples)) := by
  refine ⟨fun h => ?_, fun h => ?_, fun out h => ?_⟩
  · simp [Adc_GetLastSamplesMilliVolts, h]
  · simp [Adc_GetLastSamplesMilliVolts, h]
  · simp only [Adc_GetLastSamplesMilliVolts] at h
    by_cases h1 : iMaxSamples ≤ 0
    · rw [if_pos h1] at h
      exact absurd h (by simp)
    rw [if_neg h1] at h
    set copy := (if iMaxSamples < s.giLastSamplesCount then iMaxSamples
      else s.giLastSamplesCount) with hcopy
    have hmin : copy = min s.giLastSamplesCount iMaxSamples := by
      rw [hcopy]
      split_ifs <;> omega
    by_cases h2 : (s.gbHasLastSamples && decide (0 < copy)) = true
    · rw [if_pos h2] at h
      have hout := Option.some.inj h
      subst hout
      simp only [Bool.and_eq_true, decide_eq_true_eq] at h2
      refine ⟨hmin, by rw [hmin], by rw [hmin], fun hlen => ?_, fun hlen => ?_⟩ <;>
        · simp only [List.length_take]
          omega
    · rw [if_neg h2] at h
      exact absurd h (by simp)

/-- Witness for C10: the accessor refuses a non-positive `iMaxSamples` at a
concrete cached state. -/
theorem getLastSamples_contract_witness :
    Adc_GetLastSamplesMilliVolts sWaveExample (-1) = none ∧
    Adc_GetLastSamplesMilliVolts initialAdcState 8 = none :=
  ⟨(getLastSamples_contract sWaveExample (-1)).1 (by decide),
   (getLastSamples_contract initialAdcState 8).2.1 (by decide)⟩

/-- Claim C6: a failed single-channel read during the main capture aborts the
whole capture (no partial window is ever produced), `Adc_MeasureNow` reports
`ESP_FAIL` without retrying, and the previously published result and waveform
remain visible and unchanged to the readers. -/
theorem measure_fail_keeps_published (env : MeasureEnv) (s : AdcState) (iMaxSamples : ℤ)
    (readsA readsB : ℕ → Option ℤ) (iCount : ℕ)
    (hfail : Capture_PairedSamples env.mainReadsA env.mainReadsB iSamples_PerCh = none) :
    Adc_MeasureNow env s = (.ESP_FAIL, s) ∧
    Adc_GetLatest (Adc_MeasureNow env s).2 = Adc_GetLatest s ∧
    Adc_GetLastSamplesMilliVolts (Adc_MeasureNow env s).2 iMaxSamples =
      Adc_GetLastSamplesMilliVolts s iMaxSamples ∧
    (∀ la lb, Capture_PairedSamples readsA readsB iCount = some (la, lb) →
      la.length = iCount ∧ lb.length = iCount) := by
  have hM : Adc_MeasureNow env s = (.ESP_FAIL, s) := by
    simp [Adc_MeasureNow, hfail]
  refine ⟨hM, by rw [hM], by rw [hM], fun la lb hcap => ?_⟩
  exact captureLoop_lengths readsA readsB iCount 0 la lb hcap

/-- Witness for C6 in a concrete all-reads-fail environment. -/
theorem measure_fail_keeps_published_witness :
    Adc_MeasureNow envAllFail initialAdcState = (.ESP_FAIL, initialAdcState) :=
  (measure_fail_keeps_published envAllFail initialAdcState 1
    (fun _ => none) (fun _ => none) 0 (by decide)).1

/-- Claim C9: if a probe capture fails, the auto-range loop aborts at once
(the continuation returns the state unchanged, so the per-channel settings
held at that point, locked or not, are what the ranger returns), and
`AutoRange_Attenuations` is precisely the loop's result from the initial
state. -/
theorem autorange_abort_on_probe_failure (env : MeasureEnv) (fuel iAttempt : ℕ) (s : ArState)
    (hfail : probeFrameOf env iAttempt = none) :
    arGo env (fuel + 1) iAttempt s = s ∧
    AutoRange_Attenuations env =
      ((arGo env 12 0 arInit).chA.eAtten, (arGo env 12 0 arInit).chB.eAtten) := by
  constructor
  · cases hd : (s.chA.bDone && s.chB.bDone) <;> simp [arGo, hd, hfail]
  · rfl

/-- Witness for C9: a first-probe failure leaves the initial settings. -/
theorem autorange_abort_on_probe_failure_witness :
    arGo envAllFail 6 0 arInit = arInit :=
  (autorange_abort_on_probe_failure envAllFail 5 0 arInit (by decide)).1

theorem getD_lt_of_forall (l : List ℕ) (bound : ℕ) (hb : ∀ x ∈ l, x < bound)
    (hbound : 0 < bound) (j : ℕ) : l.getD j 0 < bound := by
  rcases Nat.lt_or_ge j l.length with hj | hj
  · rw [List.getD_eq_getElem l 0 hj]
    exact hb _ (List.getElem_mem hj)
  · rw [List.getD_eq_default l 0 hj]
    exact hbound

/-- Claim C4: the moving-average filter output has exactly the input's length
and each output sample is the (integer) unweighted mean of the
`iFilterTapCount` input samples in the symmetric window centered on its index,
with out-of-range window indices clamped to the nearest valid index.  The
`uint32_t` accumulator and `uint16_t` output cast never wrap for 16-bit input
samples, so the C arithmetic computes the exact windowed mean. -/
theorem moving_average_matches_spec (puInput : List ℕ)
    (hlen : 1 ≤ puInput.length) (hb : ∀ x ∈ puInput, x < 2 ^ 16) :
    Moving_Average_Filter puInput = specMovingAverage puInput ∧
    (Moving_Average_Filter puInput).length = puInput.length := by
  refine ⟨?_, Moving_Average_Filter_length puInput⟩
  have hb' : ∀ x ∈ puInput, x < 65536 := fun x hx => by have := hb x hx; omega
  have hgd : ∀ j : ℕ, puInput.getD j 0 < 65536 :=
    getD_lt_of_forall puInput 65536 hb' (by omega)
  simp only [Moving_Average_Filter, specMovingAverage]
  apply List.map_congr_left
  intro i hi
  rw [List.mem_range] at hi
  have htaps : (List.range iFilterTapCount).map
      (fun (t : ℕ) => (t : ℤ) - (iFilterTapCount : ℤ) / 2) = [-2, -1, 0, 1, 2] := by decide
  rw [htaps]
  simp only [List.foldl_cons, List.foldl_nil]
  have e0 : clampSourceIndex ((i : ℤ) + -2) puInput.length = specClampedIndex i 0 puInput.length := by
    simp only [clampSourceIndex, specClampedIndex]
    split_ifs <;> omega
  have e1 : clampSourceIndex ((i : ℤ) + -1) puInput.length = specClampedIndex i 1 puInput.length := by
    simp only [clampSourceIndex, specClampedIndex]
    split_ifs <;> omega
  have e2 : clampSourceIndex ((i : ℤ) + 0) puInput.length = specClampedIndex i 2 puInput.length := by
    simp only [clampSourceIndex, specClampedIndex]
    split_ifs <;> omega
  have e3 : clampSourceIndex ((i : ℤ) + 1) puInput.length = specClampedIndex i 3 puInput.length := by
    simp only [clampSourceIndex, specClampedIndex]
    split_ifs <;> omega
  have e4 : clampSourceIndex ((i : ℤ) + 2) puInput.length = specClampedIndex i 4 puInput.length := by
    simp only [clampSourceIndex, specClampedIndex]
    split_ifs <;> omega
  rw [e0, e1, e2, e3, e4]
  have b0 := hgd (specClampedIndex i 0 puInput.length)
  have b1 := hgd (specClampedIndex i 1 puInput.length)
  have b2 := hgd (specClampedIndex i 2 puInput.length)
  have b3 := hgd (specClampedIndex i 3 puInput.length)
  have b4 := hgd (specClampedIndex i 4 puInput.length)
  norm_num [Finset.sum_range_succ, Finset.sum_range_zero, iFilterTapCount]
  simp only [List.getD_eq_getElem?_getD] at b0 b1 b2 b3 b4
  omega

/-- Witness for C4 at a concrete three-sample input. -/
theorem moving_average_matches_spec_witness :
    Moving_Average_Filter [0, 10, 65535] = specMovingAverage [0, 10, 65535] ∧
    (Moving_Average_Filter [0, 10, 65535]).length = ([0, 10, 65535] : List ℕ).length :=
  moving_average_matches_spec [0, 10, 65535] (by decide) (by decide)

/-- Claim C3: for every AC count sequence of length >= 1 and gain setting,
`Compute_RmsVolts` returns `sqrt((1/n) * sum of v_i^2)` with
`v_i = counts_i * fullScaleVolts(g) / fullScaleCounts`, the sum being the
left-to-right accumulation of the loop (float/double arithmetic idealised as
exact rational/real arithmetic, under which the `double` accumulation is
exact). -/
theorem rms_matches_spec_formula (counts : List ℤ) (g : adc_atten_t) (h : counts ≠ []) :
    Compute_RmsVolts counts g = specRmsFormula counts g := by
  unfold Compute_RmsVolts specRmsFormula
  congr 1
  have hs : Compute_SumSq counts g
      = ∑ i in Finset.range counts.length,
          ((counts.getD i 0 : ℚ) * fullScaleVoltsOf g / (iAdcFullScaleCounts : ℚ)) ^ 2 := by
    unfold Compute_SumSq
    rw [foldl_add_ratSum counts (fun c => Adc_CountsToVolts g c * Adc_CountsToVolts g c) 0]
    rw [zero_add, map_sum_eq_sum_range]
    apply Finset.sum_congr rfl
    intro i _
    rw [pow_two]
    rfl
  rw [hs]
  have hfs : ((specFullScaleVolts g : ℚ) : ℝ) = ((fullScaleVoltsOf g : ℚ) : ℝ) := by
    cases g <;> norm_num [specFullScaleVolts, fullScaleVoltsOf]
  rw [hfs]
  push_cast
  rw [one_div, inv_mul_eq_div]

/-- Witness for C3 at a concrete two-sample sequence. -/
theorem rms_matches_spec_formula_witness :
    Compute_RmsVolts [2, -2] adc_atten_t.DB_0 = specRmsFormula [2, -2] adc_atten_t.DB_0 :=
  rms_matches_spec_formula [2, -2] adc_atten_t.DB_0 (by decide)

theorem chanUpdate_preserves_inv (b : Bool) (c : ChanView) (h : InvChan c) :
    InvChan (chanUpdate b c) := by
  rcases c with ⟨a, p, d⟩
  revert h
  cases b <;> cases a <;> cases p <;> cases d <;> decide

theorem chanUpdate_rel (b : Bool) (c : ChanView) (h : InvChan c) :
    relChan c (chanUpdate b c) := by
  rcases c with ⟨a, p, d⟩
  revert h
  cases b <;> cases a <;> cases p <;> cases d <;> decide

theorem chanUpdate_policy (b : Bool) (c : ChanView) (hd : c.bDone = false) :
    (b = true → chanUpdate b c = ⟨c.ePrev, c.ePrev, true⟩) ∧
    (b = false → c.eAtten = .DB_0 → chanUpdate b c = ⟨c.eAtten, c.ePrev, true⟩) ∧
    (b = false → c.eAtten ≠ .DB_0 →
      chanUpdate b c = ⟨Step_AttenuationMoreSensitive c.eAtten, c.eAtten, false⟩ ∧
      sensitivityIndex (Step_AttenuationMoreSensitive c.eAtten) = sensitivityIndex c.eAtten + 1) := by
  rcases c with ⟨a, p, d⟩
  revert hd
  cases b <;> cases a <;> cases p <;> cases d <;> decide

theorem saturatedFlag_iff (raw : List ℕ) :
    saturatedFlag raw = true ↔ ∃ u ∈ Moving_Average_Filter raw, iAdcFullScaleCounts ≤ u := by
  simp only [saturatedFlag, decide_eq_true_eq]
  rw [List.countP_pos_iff]
  simp

theorem arRun_cons (env : MeasureEnv) (fuel n : ℕ) (s : ArState) :
    ∃ t, arRun env fuel n s = s :: t := by
  cases fuel with
  | zero => exact ⟨[], rfl⟩
  | succ f =>
    simp only [arRun]
    by_cases hd : (s.chA.bDone && s.chB.bDone) = true
    · rw [if_pos hd]
      exact ⟨[], rfl⟩
    · rw [if_neg hd]
      cases hp : probeFrameOf env n with
      | none => exact ⟨[], rfl⟩
      | some fr =>
        obtain ⟨ra, rb⟩ := fr
        exact ⟨_, rfl⟩

theorem arRun_length (env : MeasureEnv) :
    ∀ (fuel n : ℕ) (s : ArState), (arRun env fuel n s).length ≤ fuel + 1 := by
  intro fuel
  induction fuel with
  | zero => intro n s; simp [arRun]
  | succ f ih =>
    intro n s
    simp only [arRun]
    by_cases hd : (s.chA.bDone && s.chB.bDone) = true
    · rw [if_pos hd]
      simp
    · rw [if_neg hd]
      cases hp : probeFrameOf env n with
      | none => simp
      | some fr =>
        obtain ⟨ra, rb⟩ := fr
        have := ih (n + 1) (arStep ra rb s)
        simp only [List.length_cons]
        omega

theorem arRun_chain (env : MeasureEnv) :
    ∀ (fuel n : ℕ) (s : ArState), InvChan s.chA → InvChan s.chB →
      List.Chain' arRel (arRun env fuel n s) := by
  intro fuel
  induction fuel with
  | zero =>
    intro n s _ _
    simp [arRun]
  | succ f ih =>
    intro n s hA hB
    simp only [arRun]
    by_cases hd : (s.chA.bDone && s.chB.bDone) = true
    · rw [if_pos hd]
      simp
    · rw [if_neg hd]
      cases hp : probeFrameOf env n with
      | none => simp
      | some fr =>
        obtain ⟨ra, rb⟩ := fr
        dsimp only
        obtain ⟨t, ht⟩ := arRun_cons env f (n + 1) (arStep ra rb s)
        rw [ht, List.chain'_cons]
        constructor
        · exact ⟨chanUpdate_rel _ _ hA, chanUpdate_rel _ _ hB⟩
        · rw [← ht]
          exact ih (n + 1) (arStep ra rb s)
            (chanUpdate_preserves_inv _ _ hA) (chanUpdate_preserves_inv _ _ hB)

theorem arRun_getLast (env : MeasureEnv) :
    ∀ (fuel n : ℕ) (s : ArState),
      (arRun env fuel n s).getLast? = some (arGo env fuel n s) := by
  intro fuel
  induction fuel with
  | zero => intro n s; simp [arRun, arGo]
  | succ f ih =>
    intro n s
    simp only [arRun, arGo]
    by_cases hd : (s.chA.bDone && s.chB.bDone) = true
    · rw [if_pos hd, if_pos hd]
      simp
    · rw [if_neg hd, if_neg hd]
      cases hp : probeFrameOf env n with
      | none => simp
      | some fr =>
        obtain ⟨ra, rb⟩ := fr
        dsimp only
        obtain ⟨t, ht⟩ := arRun_cons env f (n + 1) (arStep ra rb s)
        rw [ht, List.getLast?_cons_cons, ← ht]
        exact ih (n + 1) (arStep ra rb s)

theorem arGo_done (env : MeasureEnv) (fuel n : ℕ) (s : ArState)
    (h1 : s.chA.bDone = true) (h2 : s.chB.bDone = true) : arGo env fuel n s = s := by
  cases fuel with
  | zero => rfl
  | succ f => simp [arGo, h1, h2]

/-- Claim C2: the auto-ranger's selection policy: both channels start at the
least-sensitive setting; the probe loop runs at most 12 iterations and exits
early once both channels are locked; saturation means some filtered sample
reaches or exceeds the full-scale count; per channel the update is exactly
saturated-revert-and-lock / lock-at-most-sensitive / step-one-more-sensitive;
along the run each channel's setting moves strictly toward more sensitive
with at most one one-step reversion on lock; and stepping more-sensitive from
the most sensitive level is a no-op. -/
theorem autorange_selection_policy (env : MeasureEnv) :
    (arInit.chA.eAtten = .DB_12 ∧ arInit.chB.eAtten = .DB_12 ∧
      (∀ g, sensitivityIndex adc_atten_t.DB_12 ≤ sensitivityIndex g)) ∧
    (arRun env 12 0 arInit).length ≤ 13 ∧
    (∀ (fuel n : ℕ) (s : ArState),
      s.chA.bDone = true → s.chB.bDone = true → arGo env fuel n s = s) ∧
    (∀ raw, saturatedFlag raw = true ↔
      ∃ u ∈ Moving_Average_Filter raw, iAdcFullScaleCounts ≤ u) ∧
    (∀ (b : Bool) (c : ChanView), c.bDone = false →
      (b = true → chanUpdate b c = ⟨c.ePrev, c.ePrev, true⟩) ∧
      (b = false → c.eAtten = .DB_0 → chanUpdate b c = ⟨c.eAtten, c.ePrev, true⟩) ∧
      (b = false → c.eAtten ≠ .DB_0 →
        chanUpdate b c = ⟨Step_AttenuationMoreSensitive c.eAtten, c.eAtten, false⟩ ∧
        sensitivityIndex (Step_AttenuationMoreSensitive c.eAtten) =
          sensitivityIndex c.eAtten + 1)) ∧
    List.Chain' arRel (arRun env 12 0 arInit) ∧
    (arRun env 12 0 arInit).getLast? = some (arGo env 12 0 arInit) ∧
    AutoRange_Attenuations env =
      ((arGo env 12 0 arInit).chA.eAtten, (arGo env 12 0 arInit).chB.eAtten) ∧
    Step_AttenuationMoreSensitive adc_atten_t.DB_0 = adc_atten_t.DB_0 := by
  refine ⟨⟨rfl, rfl, fun g => by cases g <;> decide⟩,
    arRun_length env 12 0 arInit,
    arGo_done env,
    saturatedFlag_iff,
    chanUpdate_policy,
    arRun_chain env 12 0 arInit (by decide) (by decide),
    arRun_getLast env 12 0 arInit,
    rfl,
    rfl⟩

/-- Witness for C2: early exit at a concrete locked state and the concrete
saturated-revert update. -/
theorem autorange_selection_policy_witness :
    arGo envAllFail 4 2 sBothDone = sBothDone ∧
    chanUpdate true ⟨.DB_6, .DB_12, false⟩ = ⟨.DB_12, .DB_12, true⟩ := by
  have h := autorange_selection_policy envAllFail
  exact ⟨h.2.2.1 4 2 sBothDone rfl rfl,
    (h.2.2.2.2.1 true ⟨.DB_6, .DB_12, false⟩ rfl).1 rfl⟩

/-- Claim C1: after a successful `Adc_MeasureNow` (and with no intervening
publish), `Adc_GetLatest` yields exactly the RMS values, timestamp,
attenuations, and sample count just stored, and
`Adc_GetLastSamplesMilliVolts` with `iMaxSamples` at least the stored count
yields exactly the millivolt waveform arrays and metadata just stored. -/
theorem publish_roundtrip (env : MeasureEnv) (s : AdcState) (rawA rawB : List ℕ)
    (iMaxSamples : ℤ)
    (hc : Capture_PairedSamples env.mainReadsA env.mainReadsB iSamples_PerCh
      = some (rawA, rawB))
    (hm : (iSamples_PerCh : ℤ) ≤ iMaxSamples) :
    (Adc_MeasureNow env s).1 = .ESP_OK ∧
    Adc_GetLatest (Adc_MeasureNow env s).2 =
      some ⟨Compute_RmsVolts (Dc_Remove (Moving_Average_Filter rawA))
              (AutoRange_Attenuations env).1,
            Compute_RmsVolts (Dc_Remove (Moving_Average_Filter rawB))
              (AutoRange_Attenuations env).2,
            env.nowUs, (AutoRange_Attenuations env).1, (AutoRange_Attenuations env).2,
            (iSamples_PerCh : ℤ)⟩ ∧
    Adc_GetLastSamplesMilliVolts (Adc_MeasureNow env s).2 iMaxSamples =
      some ⟨(Dc_Remove (Moving_Average_Filter rawA)).map
              (fun c => quantizeMilliVolts (Adc_CountsToVolts (AutoRange_Attenuations env).1 c)),
            (Dc_Remove (Moving_Average_Filter rawB)).map
              (fun c => quantizeMilliVolts (Adc_CountsToVolts (AutoRange_Attenuations env).2 c)),
            (iSamples_PerCh : ℤ), env.nowUs,
            (AutoRange_Attenuations env).1, (AutoRange_Attenuations env).2⟩ := by
  have hlen := captureLoop_lengths env.mainReadsA env.mainReadsB iSamples_PerCh 0 rawA rawB hc
  have hmvA : ((Dc_Remove (Moving_Average_Filter rawA)).map
      (fun c => quantizeMilliVolts (Adc_CountsToVolts (AutoRange_Attenuations env).1 c))).length
      = iSamples_PerCh := by
    simp [List.length_map, Dc_Remove_length, Moving_Average_Filter_length, hlen.1]
  have hmvB : ((Dc_Remove (Moving_Average_Filter rawB)).map
      (fun c => quantizeMilliVolts (Adc_CountsToVolts (AutoRange_Attenuations env).2 c))).length
      = iSamples_PerCh := by
    simp [List.length_map, Dc_Remove_length, Moving_Average_Filter_length, hlen.2]
  have hM : Adc_MeasureNow env s =
      (.ESP_OK,
        { gsLatestResult :=
            ⟨Compute_RmsVolts (Dc_Remove (Moving_Average_Filter rawA))
                (AutoRange_Attenuations env).1,
              Compute_RmsVolts (Dc_Remove (Moving_Average_Filter rawB))
                (AutoRange_Attenuations env).2,
              env.nowUs, (AutoRange_Attenuations env).1, (AutoRange_Attenuations env).2,
              (iSamples_PerCh : ℤ)⟩
          gbHasLatest := true
          gaiLastAcMilliVoltsChA := (Dc_Remove (Moving_Average_Filter rawA)).map
            (fun c => quantizeMilliVolts (Adc_CountsToVolts (AutoRange_Attenuations env).1 c))
          gaiLastAcMilliVoltsChB := (Dc_Remove (Moving_Average_Filter rawB)).map
            (fun c => quantizeMilliVolts (Adc_CountsToVolts (AutoRange_Attenuations env).2 c))
          giLastSamplesCount := (iSamples_PerCh : ℤ)
          gliLastSamplesTimestampUs := env.nowUs
          geLastSamplesAttenChA := (AutoRange_Attenuations env).1
          geLastSamplesAttenChB := (AutoRange_Attenuations env).2
          gbHasLastSamples := true }) := by
    simp only [Adc_MeasureNow, hc]
  have hpos : ¬iMaxSamples ≤ 0 := by
    have h120 : ((iSamples_PerCh : ℕ) : ℤ) = 120 := by rw [iSamples_PerCh_eq]; rfl
    omega
  have hnotlt : ¬iMaxSamples < ((iSamples_PerCh : ℕ) : ℤ) := by omega
  refine ⟨by rw [hM], by rw [hM]; rfl, ?_⟩
  rw [hM]
  simp only [Adc_GetLastSamplesMilliVolts, if_neg hpos, if_neg hnotlt]
  have hcpos : (0 : ℤ) < ((iSamples_PerCh : ℕ) : ℤ) := by
    have h120 : ((iSamples_PerCh : ℕ) : ℤ) = 120 := by rw [iSamples_PerCh_eq]; rfl
    omega
  rw [if_pos]
  · have htn : ((iSamples_PerCh : ℕ) : ℤ).toNat = iSamples_PerCh := Int.toNat_natCast _
    rw [htn]
    rw [List.take_of_length_le (le_of_eq hmvA), List.take_of_length_le (le_of_eq hmvB)]
  · simp only [Bool.true_and, decide_eq_true_eq]
    exact hcpos

/-- Witness for C1: a concrete successful cycle (all main reads return 0)
round-trips through both accessors. -/
theorem publish_roundtrip_witness :
    (Adc_MeasureNow envMainZero initialAdcState).1 = .ESP_OK ∧
    Adc_GetLatest (Adc_MeasureNow envMainZero initialAdcState).2 =
      some ⟨Compute_RmsVolts (Dc_Remove (Moving_Average_Filter (List.replicate 120 0)))
              (AutoRange_Attenuations envMainZero).1,
            Compute_RmsVolts (Dc_Remove (Moving_Average_Filter (List.replicate 120 0)))
              (AutoRange_Attenuations envMainZero).2,
            envMainZero.nowUs, (AutoRange_Attenuations envMainZero).1,
            (AutoRange_Attenuations envMainZero).2, (iSamples_PerCh : ℤ)⟩ ∧
    Adc_GetLastSamplesMilliVolts (Adc_MeasureNow envMainZero initialAdcState).2 200 =
      some ⟨(Dc_Remove (Moving_Average_Filter (List.replicate 120 0))).map
              (fun c => quantizeMilliVolts
                (Adc_CountsToVolts (AutoRange_Attenuations envMainZero).1 c)),
            (Dc_Remove (Moving_Average_Filter (List.replicate 120 0))).map
              (fun c => quantizeMilliVolts
                (Adc_CountsToVolts (AutoRange_Attenuations envMainZero).2 c)),
            (iSamples_PerCh : ℤ), envMainZero.nowUs,
            (AutoRange_Attenuations envMainZero).1, (AutoRange_Attenuations envMainZero).2⟩ :=
  publish_roundtrip envMainZero initialAdcState
    (List.replicate 120 0) (List.replicate 120 0) 200 (by decide) (by decide)

/-- Counterexample to claim C8 as literally stated: after the operation
`Adc_MeasureNow` on the initial state (with the capture failing, so the state
is unchanged), the has-flags agree but the cached result's attenuation field
(zero-initialised static storage, enum value 0 = `ADC_ATTEN_DB_0`) differs
from the waveform cache's explicitly initialised `ADC_ATTEN_DB_12`, so the
"timestamps, attenuation settings, and sample counts are pairwise equal after
every operation" clause is false before the first publish. -/
theorem paired_fields_differ_after_failed_cycle :
    ((Adc_MeasureNow envAllFail initialAdcState).2.gbHasLatest =
      (Adc_MeasureNow envAllFail initialAdcState).2.gbHasLastSamples) ∧
    (Adc_MeasureNow envAllFail initialAdcState).2.gsLatestResult.eAttenChA ≠
      (Adc_MeasureNow envAllFail initialAdcState).2.geLastSamplesAttenChA := by
  decide

/-- Claim C8, amended: the result and waveform caches are written together in
the single critical section of `Adc_MeasureNow`, so the has-flags always
agree, and whenever a result has been published the timestamps, attenuation
settings, and sample counts of the two caches are pairwise equal (before the
first publish the dormant fields may differ).  The readers are copy-out
accessors that never modify the state. -/
theorem paired_update_invariant :
    PairedInv initialAdcState ∧
    (∀ (env : MeasureEnv) (s : AdcState), PairedInv s → PairedInv (Adc_MeasureNow env s).2) := by
  constructor
  · decide
  · intro env s hs
    cases hcap : Capture_PairedSamples env.mainReadsA env.mainReadsB iSamples_PerCh with
    | none =>
      simp only [Adc_MeasureNow, hcap]
      exact hs
    | some p =>
      obtain ⟨ra, rb⟩ := p
      simp only [Adc_MeasureNow, hcap]
      exact ⟨rfl, fun _ => ⟨rfl, rfl, rfl, rfl⟩⟩

/-- Witness for the amended C8: the invariant holds after a concrete
successful publish on the initial state. -/
theorem paired_update_invariant_witness :
    PairedInv (Adc_MeasureNow envMainZero initialAdcState).2 :=
  paired_update_invariant.2 envMainZero initialAdcState paired_update_invariant.1
